import Mathlib

/-!
Shallow embedding of the Python-distribution repackaging engine
(`src/pyoxidizer/src/pyrepackager/repackage.rs`) and proofs about it.

Machine integers are modeled as `Nat` with explicit reduction modulo `2^w`
where the source performs an `as u32` cast; byte strings are `List Nat`
(each element a byte value); fallible operations return `Except`.
-/

/-- UTF-8 encoding of a single character, as byte values.  Rust's
`str::as_bytes` views a string as its UTF-8 byte sequence; this is the
standard UTF-8 encoder for a scalar value. -/
def utf8Char (c : Char) : List Nat :=
  let n := c.toNat
  if n < 128 then [n]
  else if n < 2048 then [192 + n / 64, 128 + n % 64]
  else if n < 65536 then [224 + n / 4096, 128 + n / 64 % 64, 128 + n % 64]
  else [240 + n / 262144, 128 + n / 4096 % 64, 128 + n / 64 % 64, 128 + n % 64]

/-- The UTF-8 bytes of a string, mirroring Rust `String::as_bytes`. -/
def strBytes (s : String) : List Nat :=
  (s.data.map utf8Char).flatten

/-- Rust `WriteBytesExt::write_u32::<LittleEndian>` applied after an `as u32`
cast: the four little-endian bytes of `n` reduced modulo `2^32`.  The byte
extraction below automatically discards all bits of `n` at or above bit 32,
which is exactly the behavior of the Rust `as u32` cast. -/
def u32le (n : Nat) : List Nat :=
  [n % 256, n / 2 ^ 8 % 256, n / 2 ^ 16 % 256, n / 2 ^ 24 % 256]

/-- A resource entry: a name-value pair (`BlobEntry` in the source). -/
structure BlobEntry where
  name : String
  data : List Nat
  deriving DecidableEq

/-- Embeds `write_blob_entries`: the bytes accumulated in the writer `dest`.
The source writes the entry count, then one `(name_len, data_len)` pair of
little-endian `u32` per entry, then all names, then all data, using three
separate `for` loops over `entries`; lengths pass through an `as u32` cast. -/
def write_blob_entries (entries : List BlobEntry) : List Nat :=
  let out : List Nat := u32le entries.length
  let out := entries.foldl
    (fun acc e => acc ++ (u32le (strBytes e.name).length ++ u32le e.data.length)) out
  let out := entries.foldl (fun acc e => acc ++ strBytes e.name) out
  entries.foldl (fun acc e => acc ++ e.data) out

theorem foldl_append_eq_join {α β : Type} (f : α → List β) (l : List α) (init : List β) :
    l.foldl (fun acc x => acc ++ f x) init = init ++ (l.map f).flatten := by
  induction l generalizing init with
  | nil => simp
  | cons x xs ih => simp [ih, List.append_assoc]

theorem write_blob_entries_eq (entries : List BlobEntry) :
    write_blob_entries entries =
      u32le entries.length
        ++ (entries.map (fun e => u32le (strBytes e.name).length ++ u32le e.data.length)).flatten
        ++ (entries.map (fun e => strBytes e.name)).flatten
        ++ (entries.map (fun e => e.data)).flatten := by
  unfold write_blob_entries
  rw [foldl_append_eq_join, foldl_append_eq_join, foldl_append_eq_join]

theorem write_blob_entries_singleton (e : BlobEntry) :
    write_blob_entries [e] =
      u32le 1 ++ (u32le (strBytes e.name).length ++ u32le e.data.length)
        ++ strBytes e.name ++ e.data := by
  rw [write_blob_entries_eq]
  simp

/-- C1: `write_blob_entries` emits the entry count as little-endian u32, then
per-entry `(name byte-length, data byte-length)` pairs of little-endian u32 in
input order, then all name bytes concatenated in input order, then all data
bytes concatenated in input order, with no separators or padding; and on the
two entries `("a", [0x01, 0x02])` and `("bb", [0x03])` the output is exactly
`02 00 00 00 01 00 00 00 02 00 00 00 02 00 00 00 01 00 00 00 61 62 62 01 02 03`. -/
theorem blob_layout_c1 :
    (∀ entries : List BlobEntry,
      write_blob_entries entries =
        u32le entries.length
          ++ (entries.map (fun e => u32le (strBytes e.name).length ++ u32le e.data.length)).flatten
          ++ (entries.map (fun e => strBytes e.name)).flatten
          ++ (entries.map (fun e => e.data)).flatten) ∧
    write_blob_entries [⟨"a", [1, 2]⟩, ⟨"bb", [3]⟩] =
      [2, 0, 0, 0,  1, 0, 0, 0,  2, 0, 0, 0,  2, 0, 0, 0,  1, 0, 0, 0,
       97, 98, 98,  1, 2, 3] :=
  ⟨write_blob_entries_eq, by decide⟩

/-- A blob entry whose data is `2^32` bytes long: one byte past what a `u32`
length field can represent. -/
def hugeBlobEntry : BlobEntry :=
  ⟨"", List.replicate (2 ^ 32) 0⟩

/-- C2 (code-bug evidence): `write_blob_entries` performs no size check at
all.  On an entry with `2^32` data bytes it succeeds and silently writes `0`
as the data-length field (the `as u32` cast truncates), rather than rejecting
the entry: the output is the count `1`, a name length `0`, a data length `0`,
followed by the `2^32` data bytes. -/
theorem blob_no_size_check_c2 :
    write_blob_entries [hugeBlobEntry] =
      u32le 1 ++ u32le 0 ++ u32le 0 ++ List.replicate (2 ^ 32) 0 ∧
    hugeBlobEntry.data.length ≠ 0 := by
  have hdata : hugeBlobEntry.data = List.replicate (2 ^ 32) 0 := rfl
  have hlen : hugeBlobEntry.data.length = 2 ^ 32 := by
    rw [hdata, List.length_replicate]
  constructor
  · rw [write_blob_entries_singleton]
    have h1 : strBytes hugeBlobEntry.name = [] := rfl
    have h2 : u32le hugeBlobEntry.data.length = u32le 0 := by
      rw [hlen]; decide
    rw [h1, h2]
    rfl
  · rw [hlen]
    decide

/-- Rust `str::starts_with(&p)`: `p`'s UTF-8 bytes are a byte-level
prefix of `s`'s, which for strings coincides with character-level
prefixing. -/
def strStartsWith (s p : String) : Bool :=
  p.data.isPrefixOf s.data

/-- The fixed `STDLIB_TEST_PACKAGES` table from the source. -/
def STDLIB_TEST_PACKAGES : List String :=
  ["bsddb.test", "ctypes.test", "distutils.tests", "email.test",
   "idlelib.idle_test", "json.tests", "lib-tk.test", "lib2to3.tests",
   "sqlite3.test", "test", "tkinter.test", "unittest.test"]

/-- The loop body of `is_stdlib_test_package`: for each package the source
builds `package ++ "."` and returns true as soon as `name` starts with that
string.  Note the source performs no equality comparison with `package`
itself. -/
def is_stdlib_test_package_loop : List String → String → Bool
  | [], _ => false
  | p :: rest, name =>
    if strStartsWith name (p ++ ".") then true
    else is_stdlib_test_package_loop rest name

/-- Embeds `is_stdlib_test_package` from the source. -/
def is_stdlib_test_package (name : String) : Bool :=
  is_stdlib_test_package_loop STDLIB_TEST_PACKAGES name

/-- The skip condition of the `Stdlib` rule arm:
`is_stdlib_test_package(&name) && *exclude_test_modules`. -/
def stdlib_module_skipped (name : String) (exclude_test_modules : Bool) : Bool :=
  is_stdlib_test_package name && exclude_test_modules

/-- The fields of a distribution extension-module variant consulted by the
code embedded here (`module`, `init_fn`, `builtin_default`, `required`);
the remaining fields of the Rust struct (`variant`, `object_paths`,
`links`, ...) are not read by any embedded function. -/
structure ExtensionModule where
  module : String
  init_fn : Option String
  builtin_default : Bool
  required : Bool
  deriving DecidableEq

/-- Embeds `PythonResource` from the source. -/
inductive PythonResource where
  | extensionModule (name : String) (module : ExtensionModule)
  | moduleSource (name : String) (source : List Nat)
  | moduleBytecode (name : String) (source : List Nat) (optimize_level : Int)
  | resource (name : String) (data : List Nat)
  deriving DecidableEq

/-- Embeds `ResourceAction` from the source. -/
inductive ResourceAction where
  | add
  | remove
  deriving DecidableEq

/-- Embeds `PythonResourceEntry` from the source. -/
structure PythonResourceEntry where
  action : ResourceAction
  resource : PythonResource
  deriving DecidableEq

/-- The `Stdlib` arm of `resolve_python_packaging`.  `py_modules` is the
distribution's module-name → source mapping, with the bytes `fs::read`
returns for each path stored in place of the path.  A module is skipped
when `is_stdlib_test_package(&name) && *exclude_test_modules`; otherwise a
`ModuleSource` entry is pushed when `include_source` is set, always
followed by a `ModuleBytecode` entry. -/
def stdlib_rule_entries (py_modules : List (String × List Nat))
    (optimize_level : Int) (exclude_test_modules include_source : Bool) :
    List PythonResourceEntry :=
  py_modules.foldl
    (fun res nmsrc =>
      if stdlib_module_skipped nmsrc.1 exclude_test_modules then res
      else
        (if include_source then
          res ++ [⟨.add, .moduleSource nmsrc.1 nmsrc.2⟩]
        else res)
          ++ [⟨.add, .moduleBytecode nmsrc.1 nmsrc.2 optimize_level⟩])
    []

theorem is_stdlib_test_package_loop_eq_any (l : List String) (name : String) :
    is_stdlib_test_package_loop l name
      = l.any (fun p => strStartsWith name (p ++ ".")) := by
  induction l with
  | nil => rfl
  | cons p rest ih =>
    by_cases h : strStartsWith name (p ++ ".") = true
    · simp [is_stdlib_test_package_loop, h]
    · simp only [Bool.not_eq_true] at h
      simp [is_stdlib_test_package_loop, h, ih]

/-- C3 counterexample: the claim says a module named exactly `test` is
skipped by a `Stdlib` rule with `exclude_test_modules` set.  The code never
compares for equality with a test-package name, only for the dotted
prefix, so `is_stdlib_test_package "test"` is false and the `Stdlib` rule
emits a (non-skipped) bytecode entry for the module `test`. -/
theorem stdlib_test_exact_name_not_skipped_c3 :
    stdlib_module_skipped "test" true = false ∧
    stdlib_rule_entries [("test", [9])] 0 true false
      = [⟨.add, .moduleBytecode "test" [9] 0⟩] := by
  constructor
  · decide
  · decide

/-- C3 amended: a module is skipped if and only if `exclude_test_modules`
is set and its name is dotted-prefixed by (starts with the package followed
by `"."`) one of the known test packages; a name exactly equal to a test
package (such as `test` itself) is not skipped. -/
theorem stdlib_test_skip_amended_c3 :
    (∀ name exclude_test_modules,
      stdlib_module_skipped name exclude_test_modules
        = ((STDLIB_TEST_PACKAGES.any (fun p => strStartsWith name (p ++ ".")))
            && exclude_test_modules)) ∧
    stdlib_module_skipped "test" true = false ∧
    stdlib_module_skipped "test.support" true = true := by
  refine ⟨fun name b => ?_, by decide, by decide⟩
  rw [stdlib_module_skipped, is_stdlib_test_package, is_stdlib_test_package_loop_eq_any]

/-- The characters of a version string up to (and excluding) the second
dot: the full major and minor components. -/
def upToSecondDot : List Char → Nat → List Char
  | [], _ => []
  | c :: rest, dots =>
    if c = '.' then
      if dots = 0 then c :: upToSecondDot rest 1 else []
    else c :: upToSecondDot rest dots

/-- Follows the spec's words for comparison (§4.4 Virtualenv: the directory
component is `python<major.minor>` where `major.minor` are the full major
and minor components of the distribution's version string). -/
def spec_major_minor (version : String) : String :=
  String.mk (upToSecondDot version.data 0)

/-- The `&dist.version[0..3]` slice of the Virtualenv arm: the first three
bytes of the version string.  Version strings are ASCII, so the byte slice
coincides with the first three characters (on a non-ASCII boundary the Rust
slice would panic). -/
def versionSlice3 (version : String) : String :=
  String.mk (version.data.take 3)

/-- The site-packages directory computed by the `Virtualenv` arm of
`resolve_python_packaging`, as its list of pushed path components:
`<path>`, then `Lib` when `dist.os == "windows"` else `lib`, then
`"python" + &dist.version[0..3]`, then `site-packages`. -/
def virtualenv_packages_path (path os version : String) : List String :=
  let components := [path]
  let components := components ++ [if os == "windows" then "Lib" else "lib"]
  let components := components ++ ["python" ++ versionSlice3 version]
  components ++ ["site-packages"]

/-- C4 (code-bug evidence): for the distribution version `3.10.0` the
Virtualenv arm scans `<path>/lib/python3.1/site-packages` — the slice
`&dist.version[0..3]` keeps only three characters — while the full
major.minor components of `3.10.0` give `python3.10`. -/
theorem virtualenv_version_truncation_c4 :
    virtualenv_packages_path "/venv" "linux" "3.10.0"
      = ["/venv", "lib", "python3.1", "site-packages"] ∧
    "python" ++ spec_major_minor "3.10.0" = "python3.10" ∧
    ("python3.1" : String) ≠ "python3.10" := by
  refine ⟨by decide, by decide, by decide⟩

/-- Modelled from the spec (§4.1 scanning, the scanner itself lives outside
the embedded sources): the classification a scanned file receives. -/
inductive PyResourceFlavor where
  | source
  | bytecodeOpt
  | resourceData
  | other
  deriving DecidableEq

/-- A resource found by scanning a directory tree: its flavor, its dotted
module name, and the bytes `fs::read(resource.path)` yields. -/
structure ScannedResource where
  flavor : PyResourceFlavor
  name : String
  sourceBytes : List Nat
  deriving DecidableEq

/-- The `PipInstallSimple` arm of `resolve_python_packaging` after the
`pip install` child has been spawned.  `pipStatus` is the result of
`Command::status()`: `.error` when the child failed to start (the source
panics via `.expect("error running pip")`, modeled as an error result), and
`.ok code` when the child ran to completion with exit status `code`.  The
source never examines `code`: it proceeds to scan the temp directory and
stage every `Source`-flavored resource (a `ModuleSource` entry when
`include_source` is set, always a `ModuleBytecode` entry). -/
def pip_install_simple (pipStatus : Except String Nat)
    (scanned : List ScannedResource) (optimize_level : Int)
    (include_source : Bool) : Except String (List PythonResourceEntry) :=
  match pipStatus with
  | .error _ => .error "error running pip"
  | .ok _ =>
    .ok (scanned.foldl
      (fun res r =>
        match r.flavor with
        | .source =>
          (if include_source then
            res ++ [⟨.add, .moduleSource r.name r.sourceBytes⟩]
          else res)
            ++ [⟨.add, .moduleBytecode r.name r.sourceBytes optimize_level⟩]
        | _ => res)
      [])

/-- C5 (code-bug evidence): the exit status of the pip child is ignored —
the arm behaves identically for every exit code — and in particular when
pip exits with status 1 the build does not fail: the temp directory is
scanned and its contents staged. -/
theorem pip_exit_status_ignored_c5 :
    (∀ (code : Nat) (scanned : List ScannedResource) (opt : Int) (inc : Bool),
      pip_install_simple (.ok code) scanned opt inc
        = pip_install_simple (.ok 0) scanned opt inc) ∧
    pip_install_simple (.ok 1) [⟨.source, "pkg", [55]⟩] 0 true
      = .ok [⟨.add, .moduleSource "pkg" [55]⟩,
             ⟨.add, .moduleBytecode "pkg" [55] 0⟩] :=
  ⟨fun _ _ _ _ => rfl, rfl⟩

/-- The per-pattern test both scanning arms perform:
`&resource.name == pattern || resource.name.starts_with(&(pattern + "."))`. -/
def name_matches (name p : String) : Bool :=
  name == p || strStartsWith name (p ++ ".")

/-- The exclusion loop of the `Virtualenv` arm: `relevant` starts `true`
and is set to `false` whenever an exclude pattern matches. -/
def virtualenv_relevant (name : String) (excludes : List String) : Bool :=
  excludes.foldl
    (fun relevant exclude => if name_matches name exclude then false else relevant)
    true

/-- The selection loops of the `PackageRoot` arm: `relevant` starts
`false`, is set `true` whenever a `packages` entry matches, and then set
`false` whenever an exclude matches. -/
def package_root_relevant (name : String) (packages excludes : List String) : Bool :=
  let relevant := packages.foldl
    (fun relevant package => if name_matches name package then true else relevant)
    false
  excludes.foldl
    (fun relevant exclude => if name_matches name exclude then false else relevant)
    relevant

theorem foldl_latch_false {α : Type} (p : α → Bool) (l : List α) (b : Bool) :
    l.foldl (fun r x => if p x then false else r) b = (b && !(l.any p)) := by
  induction l generalizing b with
  | nil => simp
  | cons x xs ih =>
    rw [List.foldl_cons, ih]
    by_cases h : p x = true <;> simp [h]

theorem foldl_latch_true {α : Type} (p : α → Bool) (l : List α) (b : Bool) :
    l.foldl (fun r x => if p x then true else r) b = (b || l.any p) := by
  induction l generalizing b with
  | nil => simp
  | cons x xs ih =>
    rw [List.foldl_cons, ih]
    by_cases h : p x = true <;> simp [h]

/-- C8: in both scanning arms, a module name is excluded exactly when some
exclude pattern `p` satisfies `name == p` or `name` starts with `p ++ "."`;
consequently `foo.barbell` is never excluded by the exclude `foo.bar`. -/
theorem exclude_prefix_matching_c8 :
    (∀ name excludes, virtualenv_relevant name excludes
        = !(excludes.any (fun p => name_matches name p))) ∧
    (∀ name packages excludes, package_root_relevant name packages excludes
        = ((packages.any (fun p => name_matches name p))
            && !(excludes.any (fun p => name_matches name p)))) ∧
    name_matches "foo.barbell" "foo.bar" = false ∧
    virtualenv_relevant "foo.barbell" ["foo.bar"] = true ∧
    package_root_relevant "foo.barbell" ["foo"] ["foo.bar"] = true := by
  refine ⟨fun name excludes => ?_, fun name packages excludes => ?_,
    by decide, by decide, by decide⟩
  · rw [virtualenv_relevant, foldl_latch_false]
    simp
  · rw [package_root_relevant, foldl_latch_true, foldl_latch_false]
    simp

/-- Rust `BTreeMap::contains_key` on the association-list model of the staging
map (`m` lists the map's entries; only key membership and lookup are
relied on by the membership-level theorems below). -/
def containsKey {V : Type} (m : List (String × V)) (k : String) : Bool :=
  m.any (fun kv => kv.1 == k)

/-- Rust `BTreeMap::remove`, observed at the entry level: every entry keyed `k`
disappears. -/
def removeKey {V : Type} (m : List (String × V)) (k : String) : List (String × V) :=
  m.filter (fun kv => !(kv.1 == k))

/-- Embeds `OS_IGNORE_EXTENSIONS`: the per-target extension blocklist the source
builds under `cfg!(target_os = ...)`. -/
def osIgnoreExtensions (target_os : String) : List String :=
  if target_os == "linux" then ["_crypt", "nis"]
  else if target_os == "macos" then ["_curses", "_curses_panel", "readline"]
  else []

/-- The first loop after rule processing in `resolve_python_resources`:
insert the first variant of every distribution extension that has
`builtin_default || required` and is not yet in the staging map.
`dist_extension_modules` pairs each extension name with its `variants[0]`
(the only variant the loop reads). -/
def add_required_extensions
    (dist_extension_modules : List (String × ExtensionModule))
    (m : List (String × ExtensionModule)) : List (String × ExtensionModule) :=
  dist_extension_modules.foldl
    (fun m kv =>
      if (kv.2.builtin_default || kv.2.required) && !(containsKey m kv.1) then
        m ++ [(kv.1, kv.2)]
      else m)
    m

/-- The second loop after rule processing: remove every extension on the
per-target blocklist. -/
def remove_ignored_extensions (ignore : List String)
    (m : List (String × ExtensionModule)) : List (String × ExtensionModule) :=
  ignore.foldl (fun m e => removeKey m e) m

/-- The `extension_modules` staging map as `resolve_python_resources`
returns it: whatever map `m` the rules and filters produced, with required
extensions re-added and the blocklist removed (in that order). -/
def finalize_extension_modules
    (dist_extension_modules : List (String × ExtensionModule))
    (target_os : String)
    (m : List (String × ExtensionModule)) : List (String × ExtensionModule) :=
  remove_ignored_extensions (osIgnoreExtensions target_os)
    (add_required_extensions dist_extension_modules m)

theorem containsKey_append {V : Type} (m1 m2 : List (String × V)) (k : String) :
    containsKey (m1 ++ m2) k = (containsKey m1 k || containsKey m2 k) := by
  simp [containsKey]

theorem containsKey_removeKey_self {V : Type} (m : List (String × V)) (k : String) :
    containsKey (removeKey m k) k = false := by
  induction m with
  | nil => rfl
  | cons kv t ih =>
    by_cases h : kv.1 == k
    · simp [containsKey, removeKey, List.filter_cons, h] at ih ⊢
    · simp only [Bool.not_eq_true] at h
      simp [containsKey, removeKey, List.filter_cons, h] at ih ⊢

theorem containsKey_removeKey_ne {V : Type} (m : List (String × V)) {k n : String}
    (h : n ≠ k) : containsKey (removeKey m k) n = containsKey m n := by
  induction m with
  | nil => rfl
  | cons kv t ih =>
    by_cases hk : kv.1 == k
    · have hkeq : kv.1 = k := eq_of_beq hk
      have hn : (kv.1 == n) = false := by
        refine beq_eq_false_iff_ne.mpr ?_
        rw [hkeq]
        exact fun heq => h heq.symm
      simp [containsKey, removeKey, List.filter_cons, hk, hn] at ih ⊢
      exact ih
    · simp only [Bool.not_eq_true] at hk
      simp [containsKey, removeKey, List.filter_cons, hk] at ih ⊢
      rw [ih]

theorem contains_remove_ignored_of_not_mem {ignore : List String}
    {m : List (String × ExtensionModule)} {n : String}
    (h : ∀ e ∈ ignore, n ≠ e) (h2 : containsKey m n = true) :
    containsKey (remove_ignored_extensions ignore m) n = true := by
  induction ignore generalizing m with
  | nil => exact h2
  | cons e rest ih =>
    rw [remove_ignored_extensions, List.foldl_cons]
    refine ih (fun x hx => h x (List.mem_cons_of_mem e hx)) ?_
    rw [containsKey_removeKey_ne m (h e (List.mem_cons_self e rest))]
    exact h2

theorem contains_remove_ignored_mono_false {ignore : List String}
    {m : List (String × ExtensionModule)} {n : String}
    (h : containsKey m n = false) :
    containsKey (remove_ignored_extensions ignore m) n = false := by
  induction ignore generalizing m with
  | nil => exact h
  | cons e rest ih =>
    rw [remove_ignored_extensions, List.foldl_cons]
    refine ih ?_
    by_cases he : n = e
    · rw [he]
      exact containsKey_removeKey_self m e
    · rw [containsKey_removeKey_ne m he]
      exact h

theorem contains_remove_ignored_of_mem {ignore : List String}
    {m : List (String × ExtensionModule)} {n : String} (h : n ∈ ignore) :
    containsKey (remove_ignored_extensions ignore m) n = false := by
  induction ignore generalizing m with
  | nil => cases h
  | cons e rest ih =>
    rw [remove_ignored_extensions, List.foldl_cons]
    rcases List.mem_cons.mp h with he | hrest
    · refine contains_remove_ignored_mono_false ?_
      rw [he]
      exact containsKey_removeKey_self m e
    · exact ih hrest

theorem contains_add_required_mono
    {d : List (String × ExtensionModule)} {m : List (String × ExtensionModule)}
    {n : String} (h : containsKey m n = true) :
    containsKey (add_required_extensions d m) n = true := by
  induction d generalizing m with
  | nil => exact h
  | cons kv rest ih =>
    rw [add_required_extensions, List.foldl_cons]
    by_cases hc : ((kv.2.builtin_default || kv.2.required) && !(containsKey m kv.1)) = true
    · rw [if_pos hc]
      refine ih ?_
      rw [containsKey_append, h]
      rfl
    · rw [if_neg hc]
      exact ih h

theorem contains_add_required_of_mem
    {d : List (String × ExtensionModule)} {m : List (String × ExtensionModule)}
    {n : String} {em : ExtensionModule}
    (hmem : (n, em) ∈ d) (hflag : (em.builtin_default || em.required) = true) :
    containsKey (add_required_extensions d m) n = true := by
  induction d generalizing m with
  | nil => cases hmem
  | cons kv rest ih =>
    rw [add_required_extensions, List.foldl_cons]
    rcases List.mem_cons.mp hmem with hkv | hrest
    · by_cases hc : containsKey m n = true
      · rw [← hkv]
        simp only [← hkv, hflag, hc, Bool.not_true, Bool.and_false, if_neg]
        exact contains_add_required_mono hc
      · simp only [Bool.not_eq_true] at hc
        rw [← hkv]
        simp only [hflag, hc, Bool.not_false, Bool.and_true, if_pos]
        refine contains_add_required_mono ?_
        rw [containsKey_append, hc]
        simp [containsKey]
    · exact ih hrest

/-- C6: whatever staging map `m` the rules and filters produced, after the
closing passes of `resolve_python_resources` every distribution extension
whose first variant has `builtin_default || required` is present — unless
its name is on the target's `OS_IGNORE_EXTENSIONS` blocklist — and every
blocklisted name is absent from the returned map. -/
theorem required_extensions_closure_c6
    (dist_extension_modules : List (String × ExtensionModule))
    (target_os : String) (m : List (String × ExtensionModule))
    (name : String) (em : ExtensionModule)
    (hmem : (name, em) ∈ dist_extension_modules)
    (hflag : (em.builtin_default || em.required) = true)
    (hnotig : name ∉ osIgnoreExtensions target_os) :
    containsKey
      (finalize_extension_modules dist_extension_modules target_os m) name = true ∧
    ∀ e ∈ osIgnoreExtensions target_os,
      containsKey
        (finalize_extension_modules dist_extension_modules target_os m) e = false := by
  constructor
  · refine contains_remove_ignored_of_not_mem ?_
      (contains_add_required_of_mem hmem hflag)
    intro e he heq
    exact hnotig (heq ▸ he)
  · intro e he
    exact contains_remove_ignored_of_mem he

/-- A concrete required extension used to witness the closure theorem. -/
def witnessRequiredExt : ExtensionModule :=
  ⟨"_abc", some "PyInit__abc", true, false⟩

/-- Witness for C6 at a concrete input: one required extension `_abc`,
target `linux`, empty post-rules staging map. -/
theorem required_extensions_closure_c6_witness :
    ("_abc", witnessRequiredExt) ∈ [("_abc", witnessRequiredExt)] ∧
    (witnessRequiredExt.builtin_default || witnessRequiredExt.required) = true ∧
    "_abc" ∉ osIgnoreExtensions "linux" ∧
    (containsKey
      (finalize_extension_modules [("_abc", witnessRequiredExt)] "linux" []) "_abc" = true ∧
     ∀ e ∈ osIgnoreExtensions "linux",
       containsKey
         (finalize_extension_modules [("_abc", witnessRequiredExt)] "linux" []) e = false) :=
  ⟨by decide, by decide, by decide,
   required_extensions_closure_c6 [("_abc", witnessRequiredExt)] "linux" []
     "_abc" witnessRequiredExt (by decide) (by decide) (by decide)⟩


/-- Lexicographic comparison of character lists by code point. -/
def charListLt : List Char → List Char → Bool
  | _, [] => false
  | [], _ :: _ => true
  | a :: as, b :: bs =>
    if a.toNat < b.toNat then true
    else if b.toNat < a.toNat then false
    else charListLt as bs

/-- The strict order in which a Rust `BTreeMap<String, _>` keeps its keys:
lexicographic over the UTF-8 bytes, which coincides with lexicographic
comparison of the code-point sequences (UTF-8 preserves code-point
order). -/
def strLt (a b : String) : Bool :=
  charListLt a.data b.data

/-- The extern declaration `make_config_c` pushes for an init function. -/
def extern_line (g : String) : String :=
  "extern PyObject* " ++ g ++ "(void);"

/-- The `_PyImport_Inittab` row `make_config_c` pushes for an extension:
`{"<em.module>", <init_fn>},`. -/
def inittab_row (em_module g : String) : String :=
  "\x7b\"" ++ em_module ++ "\", " ++ g ++ "\x7d,"

/-- The body of the first loop of `make_config_c`: push an extern
declaration unless `init_fn` is absent or the literal `"NULL"`. -/
def extern_step (ls : List String) (kv : String × ExtensionModule) : List String :=
  match kv.2.init_fn with
  | some g => if g == "NULL" then ls else ls ++ [extern_line g]
  | none => ls

/-- The body of the second loop of `make_config_c`: push an inittab row
unless `init_fn` is absent or the literal `"NULL"`. -/
def row_step (ls : List String) (kv : String × ExtensionModule) : List String :=
  match kv.2.init_fn with
  | some g => if g == "NULL" then ls else ls ++ [inittab_row kv.2.module g]
  | none => ls

/-- Embeds `make_config_c` from the source.  `extension_modules` is the staging
map's entry list (a `BTreeMap` iterates its entries in ascending key
order, so the list is ascending by key).  Lines are accumulated by `push`
into a vector and joined with a newline at the end. -/
def make_config_c (extension_modules : List (String × ExtensionModule)) : String :=
  let lines : List String := ["#include \"Python.h\""]
  let lines := extension_modules.foldl extern_step lines
  let lines := lines ++ ["struct _inittab _PyImport_Inittab[] = \x7b"]
  let lines := extension_modules.foldl row_step lines
  let lines := lines ++ ["\x7b0, 0\x7d"]
  let lines := lines ++ ["\x7d;"]
  String.intercalate "\n" lines

/-- The extern declaration an entry contributes, if any. -/
def extern_sel (kv : String × ExtensionModule) : Option String :=
  match kv.2.init_fn with
  | some g => if g == "NULL" then none else some (extern_line g)
  | none => none

/-- The inittab row an entry contributes, if any. -/
def row_sel (kv : String × ExtensionModule) : Option String :=
  match kv.2.init_fn with
  | some g => if g == "NULL" then none else some (inittab_row kv.2.module g)
  | none => none

/-- The key of an entry that contributes an inittab row, if any. -/
def row_key_sel (kv : String × ExtensionModule) : Option String :=
  match kv.2.init_fn with
  | some g => if g == "NULL" then none else some kv.1
  | none => none

/-- The extern declarations of `make_config_c` as one pass: one line per
extension whose `init_fn` is present and not the literal `"NULL"`, in map
order. -/
def config_c_extern_lines (m : List (String × ExtensionModule)) : List String :=
  m.filterMap extern_sel

/-- The `_PyImport_Inittab` rows of `make_config_c` as one pass. -/
def config_c_inittab_rows (m : List (String × ExtensionModule)) : List String :=
  m.filterMap row_sel

/-- The staging-map keys that contribute a row to `_PyImport_Inittab`. -/
def inittab_row_keys (m : List (String × ExtensionModule)) : List String :=
  m.filterMap row_key_sel

theorem foldl_extern_eq (l : List (String × ExtensionModule)) (init : List String) :
    l.foldl extern_step init = init ++ config_c_extern_lines l := by
  induction l generalizing init with
  | nil => simp [config_c_extern_lines]
  | cons kv rest ih =>
    rw [List.foldl_cons, ih, config_c_extern_lines, config_c_extern_lines,
      List.filterMap_cons]
    cases hsel : kv.2.init_fn with
    | none => simp [extern_step, extern_sel, hsel]
    | some g =>
      by_cases hg : (g == "NULL") = true
      · simp [extern_step, extern_sel, hsel, hg]
      · simp only [Bool.not_eq_true] at hg
        simp [extern_step, extern_sel, hsel, hg, List.append_assoc]

theorem foldl_rows_eq (l : List (String × ExtensionModule)) (init : List String) :
    l.foldl row_step init = init ++ config_c_inittab_rows l := by
  induction l generalizing init with
  | nil => simp [config_c_inittab_rows]
  | cons kv rest ih =>
    rw [List.foldl_cons, ih, config_c_inittab_rows, config_c_inittab_rows,
      List.filterMap_cons]
    cases hsel : kv.2.init_fn with
    | none => simp [row_step, row_sel, hsel]
    | some g =>
      by_cases hg : (g == "NULL") = true
      · simp [row_step, row_sel, hsel, hg]
      · simp only [Bool.not_eq_true] at hg
        simp [row_step, row_sel, hsel, hg, List.append_assoc]

theorem make_config_c_eq (m : List (String × ExtensionModule)) :
    make_config_c m =
      String.intercalate "\n"
        (["#include \"Python.h\""]
          ++ config_c_extern_lines m
          ++ ["struct _inittab _PyImport_Inittab[] = \x7b"]
          ++ config_c_inittab_rows m
          ++ ["\x7b0, 0\x7d", "\x7d;"]) := by
  simp only [make_config_c]
  rw [foldl_extern_eq, foldl_rows_eq]
  simp [List.append_assoc]

/-- C7: provided the staging map's entries are ascending by module name (a
`BTreeMap` iterates that way), `make_config_c` emits the include line, one
extern declaration per extension with a present, non-`"NULL"` init
function, the `_PyImport_Inittab` header, exactly one
`{"<module>", <init_fn>},` row per such extension in map order, the
`{0, 0}` sentinel, and the closing brace — and the names contributing rows
remain strictly ascending, while extensions with an absent or `"NULL"`
init function contribute neither an extern nor a row. -/
theorem make_config_c_inittab_c7 (m : List (String × ExtensionModule))
    (hsorted : m.Pairwise (fun a b => strLt a.1 b.1 = true)) :
    make_config_c m =
      String.intercalate "\n"
        (["#include \"Python.h\""]
          ++ config_c_extern_lines m
          ++ ["struct _inittab _PyImport_Inittab[] = \x7b"]
          ++ config_c_inittab_rows m
          ++ ["\x7b0, 0\x7d", "\x7d;"]) ∧
    (inittab_row_keys m).Pairwise (fun a b => strLt a b = true) := by
  refine ⟨make_config_c_eq m, ?_⟩
  refine hsorted.filterMap _ ?_
  intro a a' hlt b hb b' hb'
  cases ha : a.2.init_fn with
  | none =>
    simp [row_key_sel, ha] at hb
  | some g =>
    by_cases hg : (g == "NULL") = true
    · simp [row_key_sel, ha, hg] at hb
    · simp [row_key_sel, ha, hg] at hb
      cases ha' : a'.2.init_fn with
      | none =>
        simp [row_key_sel, ha'] at hb'
      | some g' =>
        by_cases hg' : (g' == "NULL") = true
        · simp [row_key_sel, ha', hg'] at hb'
        · simp [row_key_sel, ha', hg'] at hb'
          subst hb
          subst hb'
          exact hlt

/-- A concrete staging map for the C7 witness: a normal extension, one with
`init_fn == "NULL"`, and a second normal one, keys ascending. -/
def witnessConfigMap : List (String × ExtensionModule) :=
  [("_abc", ⟨"_abc", some "PyInit__abc", true, false⟩),
   ("_null", ⟨"_null", some "NULL", false, false⟩),
   ("zlib", ⟨"zlib", some "PyInit_zlib", false, true⟩)]

/-- Witness for C7 at a concrete, ascending staging map. -/
theorem make_config_c_inittab_c7_witness :
    witnessConfigMap.Pairwise (fun a b => strLt a.1 b.1 = true) ∧
    (make_config_c witnessConfigMap =
      String.intercalate "\n"
        (["#include \"Python.h\""]
          ++ config_c_extern_lines witnessConfigMap
          ++ ["struct _inittab _PyImport_Inittab[] = \x7b"]
          ++ config_c_inittab_rows witnessConfigMap
          ++ ["\x7b0, 0\x7d", "\x7d;"]) ∧
     (inittab_row_keys witnessConfigMap).Pairwise (fun a b => strLt a b = true)) :=
  ⟨by decide, make_config_c_inittab_c7 witnessConfigMap (by decide)⟩

/-- Embeds `filter_btreemap` from the source: collect the map's keys into a
vector, then remove every key the whitelist `f` does not contain. -/
def filter_btreemap {V : Type} (m : List (String × V)) (f : List String) :
    List (String × V) :=
  (m.map (fun kv => kv.1)).foldl
    (fun acc key => if f.contains key then acc else removeKey acc key) m

theorem fold_remove_eq_filter {V : Type} (f ks : List String)
    (m : List (String × V)) :
    ks.foldl (fun acc key => if f.contains key then acc else removeKey acc key) m
      = m.filter (fun kv => f.contains kv.1 || !(ks.contains kv.1)) := by
  induction ks generalizing m with
  | nil => simp
  | cons k ks ih =>
    rw [List.foldl_cons]
    by_cases hfk : f.contains k = true
    · rw [if_pos hfk, ih]
      refine List.filter_congr ?_
      intro kv hkv
      by_cases hk : kv.1 = k
      · rw [hk, hfk]
        simp
      · have hne : (kv.1 == k) = false := beq_eq_false_iff_ne.mpr hk
        rw [List.contains_cons, hne]
        simp
    · rw [if_neg hfk, ih, removeKey, List.filter_filter]
      simp only [Bool.not_eq_true] at hfk
      refine List.filter_congr ?_
      intro kv hkv
      by_cases hk : kv.1 = k
      · have hbeq : (kv.1 == k) = true := by rw [hk]; exact beq_self_eq_true k
        rw [List.contains_cons, hbeq, hk, hfk]
        simp
      · have hne : (kv.1 == k) = false := beq_eq_false_iff_ne.mpr hk
        rw [List.contains_cons, hne]
        simp

theorem filter_btreemap_eq_filter {V : Type} (m : List (String × V))
    (f : List String) :
    filter_btreemap m f = m.filter (fun kv => f.contains kv.1) := by
  rw [filter_btreemap, fold_remove_eq_filter]
  refine List.filter_congr ?_
  intro kv hkv
  have hmem : (m.map (fun kv => kv.1)).contains kv.1 = true := by
    simp only [List.contains_iff_exists_mem_beq]
    exact ⟨kv.1, List.mem_map_of_mem _ hkv, by simp⟩
  rw [hmem]
  simp

theorem filter_btreemap_idem {V : Type} (m : List (String × V))
    (f : List String) :
    filter_btreemap (filter_btreemap m f) f = filter_btreemap m f := by
  simp only [filter_btreemap_eq_filter, List.filter_filter]
  refine List.filter_congr ?_
  intro kv _
  exact Bool.and_self _

/-- The four staging maps of `resolve_python_resources` at the moment a
filter rule is applied (bytecode requests carry the pending
`(source, optimize_level)` pairs). -/
structure StagingMaps where
  extension_modules : List (String × ExtensionModule)
  sources : List (String × List Nat)
  bytecode_requests : List (String × (List Nat × Int))
  resources : List (String × List Nat)
  deriving DecidableEq

/-- The `FilterFileInclude` handling of `resolve_python_resources`: all
four staging maps are intersected with the whitelist via
`filter_btreemap`. -/
def apply_filter_file_include (include_names : List String)
    (st : StagingMaps) : StagingMaps :=
  { extension_modules := filter_btreemap st.extension_modules include_names
    sources := filter_btreemap st.sources include_names
    bytecode_requests := filter_btreemap st.bytecode_requests include_names
    resources := filter_btreemap st.resources include_names }

/-- C9: applying a `FilterFileInclude` whitelist twice in succession
leaves exactly the staging maps of applying it once. -/
theorem filter_idempotent_c9 :
    ∀ (include_names : List String) (st : StagingMaps),
      apply_filter_file_include include_names
          (apply_filter_file_include include_names st)
        = apply_filter_file_include include_names st := by
  intro ns st
  simp [apply_filter_file_include, filter_btreemap_idem]

/-- Rust `BTreeSet::insert`, observed at the membership level (the source's set
is ordered and deduplicated; this model deduplicates and appends, which
preserves membership). -/
def btreeset_insert (res : List String) (s : String) : List String :=
  if res.contains s then res else res ++ [s]

/-- The loop body of `read_resource_names_file`: skip the line when it
starts with `'#'` or is empty, otherwise insert it into the set. -/
def names_step (res : List String) (line : String) : List String :=
  if strStartsWith line "#" || line == "" then res
  else btreeset_insert res line

/-- Embeds `read_resource_names_file` from the source, over the file's lines
(`BufRead::lines` yields the lines without their terminators). -/
def read_resource_names_file (lines : List String) : List String :=
  lines.foldl names_step []

theorem contains_btreeset_insert (res : List String) (l n : String) :
    (btreeset_insert res l).contains n = (res.contains n || n == l) := by
  rw [btreeset_insert]
  by_cases h : res.contains l = true
  · rw [if_pos h]
    by_cases hl : n = l
    · subst hl
      rw [h, beq_self_eq_true]
      simp
    · have hne : (n == l) = false := beq_eq_false_iff_ne.mpr hl
      rw [hne]
      simp
  · rw [if_neg h]
    by_cases hl : n = l <;> simp [hl]

theorem read_names_aux (lines acc : List String) (n : String) :
    (lines.foldl names_step acc).contains n
      = (acc.contains n
          || (lines.contains n && (!(strStartsWith n "#") && !(n == "")))) := by
  induction lines generalizing acc with
  | nil => simp
  | cons line rest ih =>
    rw [List.foldl_cons, ih]
    by_cases hskip : (strStartsWith line "#" || line == "") = true
    · rw [names_step, if_pos hskip]
      by_cases hn : n = line
      · subst hn
        rcases Bool.or_eq_true_iff.mp hskip with h1 | h2
        · simp [List.contains_cons, h1]
        · simp [List.contains_cons, h2]
      · simp [List.contains_cons, hn]
    · rw [names_step, if_neg hskip]
      simp only [Bool.or_eq_true, not_or, Bool.not_eq_true] at hskip
      rw [contains_btreeset_insert]
      by_cases hn : n = line
      · subst hn
        simp [List.contains_cons, hskip.1, hskip.2]
      · have hne : (n == line) = false := by simp [hn]
        simp [List.contains_cons, hn, hne]

/-- C10: a name is in the include set `read_resource_names_file` builds
exactly when it is one of the file's lines, does not start with `'#'`, and
is not empty — so comment and blank lines never contribute to the
whitelist used by the filter rules. -/
theorem resource_names_file_c10 :
    ∀ (lines : List String) (n : String),
      (read_resource_names_file lines).contains n
        = (lines.contains n && (!(strStartsWith n "#") && !(n == ""))) := by
  intro lines n
  rw [read_resource_names_file, read_names_aux]
  simp
